import Mathlib

/-!
Verification development for the orchestration core of the BigARTM master
component (`src/artm/core/master_component.cc`).  The definitions below are a
shallow embedding of that file's operations; collaborators that live outside
the embedded file (merger store, dense matrix constructors, protobuf message
codec, batch manager) are modelled from the specification and are marked as
such in their doc comments.  Weights are embedded as exact rationals.
-/

namespace ArtmCore

/-- A token of a phi matrix: `(keyword, class_id)`, as in `artm::core::Token`. -/
abbrev Token := String × String

/-- Shallow embedding of a token-by-topic matrix (`artm::core::PhiMatrix` /
`DensePhiMatrix`): a name, a topic-name list, a token list and one weight row
per token. -/
structure PhiMatrix where
  name : String
  topicNames : List String
  tokens : List Token
  weights : List (List ℚ)
deriving DecidableEq

/-- Modelled from the spec: a versioned topic model held by the merger
(`artm::core::TopicModel`, not part of the embedded sources), exposing its
`GetPwt` and `GetNwt` matrix views. -/
structure VersionedModel where
  pwt : PhiMatrix
  nwt : PhiMatrix
deriving DecidableEq

/-- Modelled from the spec: the Matrix Store held by the merger (not part of
the embedded sources) — named versioned topic models and named raw phi
matrices, looked up by `GetLatestTopicModel` and `GetPhiMatrix`. -/
structure MasterState where
  topicModels : List (String × VersionedModel)
  phiMatrices : List (String × PhiMatrix)
deriving DecidableEq

/-- Modelled from the spec: `merger()->GetLatestTopicModel(name)`. -/
def getLatestTopicModel (st : MasterState) (name : String) : Option VersionedModel :=
  (st.topicModels.find? (fun p => p.1 == name)).map (fun p => p.2)

/-- Modelled from the spec: `merger()->GetPhiMatrix(name)`. -/
def getPhiMatrix (st : MasterState) (name : String) : Option PhiMatrix :=
  (st.phiMatrices.find? (fun p => p.1 == name)).map (fun p => p.2)

/-- The source-resolution idiom of `master_component.cc`: a named source
exists when either lookup succeeds, and the versioned model's `GetPwt` view is
preferred over a raw matrix
(`(topic_model != nullptr) ? topic_model->GetPwt() : *phi_matrix`). -/
def resolvePwt (st : MasterState) (name : String) : Option PhiMatrix :=
  match getLatestTopicModel st name with
  | some tm => some tm.pwt
  | none => getPhiMatrix st name

/-- Same resolution preferring the versioned model's `GetNwt` view, as used by
`MergeModel` and `RegularizeModel` for counts sources. -/
def resolveNwt (st : MasterState) (name : String) : Option PhiMatrix :=
  match getLatestTopicModel st name with
  | some tm => some tm.nwt
  | none => getPhiMatrix st name

/-- Modelled from the spec: the `DensePhiMatrix(name, topic_name)` constructor
(not part of the embedded sources) — a new matrix with the given topic-name
list and no tokens. -/
def emptyMatrix (name : String) (topicNames : List String) : PhiMatrix :=
  { name := name, topicNames := topicNames, tokens := [], weights := [] }

/-- Modelled from the spec: `DensePhiMatrix::Reshape(source)` (not part of the
embedded sources) — "allocate a new, zero-initialized matrix reshaped to the
source's topic layout": the target adopts the source's token list with every
weight zero. -/
def PhiMatrix.reshape (target source : PhiMatrix) : PhiMatrix :=
  { target with
    tokens := source.tokens
    weights := source.tokens.map (fun _ => target.topicNames.map (fun _ => (0 : ℚ))) }

/-- Modelled from the spec: one token's contribution inside
`PhiMatrixOperations::ApplyTopicModelOperation` (not part of the embedded
sources) — accumulate `w * row` into the matching row of the target, appending
tokens the target does not yet hold. -/
def PhiMatrix.applyRow (m : PhiMatrix) (w : ℚ) (tok : Token) (row : List ℚ) : PhiMatrix :=
  if tok ∈ m.tokens then
    let i := m.tokens.indexOf tok
    { m with weights := (m.weights.set i
        (List.zipWith (fun a b => a + b) (m.weights.getD i []) (row.map (fun x => w * x)))) }
  else
    { m with tokens := m.tokens ++ [tok], weights := m.weights ++ [row.map (fun x => w * x)] }

/-- Modelled from the spec: `PhiMatrixOperations::ApplyTopicModelOperation`
(not part of the embedded sources) — accumulate every (token, row) entry of a
retrieved chunk additively with a given weight, "tolerating chunks that
introduce new tokens". -/
def applyTopicModelOperation (entries : List (Token × List ℚ)) (w : ℚ)
    (target : PhiMatrix) : PhiMatrix :=
  entries.foldl (fun m e => m.applyRow w e.1 e.2) target

/-- Modelled from the spec: the (token, dense weight row) content retrieved
from a matrix by `PhiMatrixOperations::RetrieveExternalTopicModel` (not part
of the embedded sources). -/
def PhiMatrix.entries (m : PhiMatrix) : List (Token × List ℚ) :=
  m.tokens.zip m.weights

/-- The error taxonomy of `artm/core/exceptions.h` as surfaced by
`master_component.cc`; `nullDereference` stands for an invalid access through
a null matrix pointer (undefined behaviour in the C++ source). -/
inductive MasterErr
  | invalidOperation (msg : String)
  | diskRead (msg : String)
  | diskWrite (msg : String)
  | corruptedMessage (msg : String)
  | internalError (msg : String)
  | nullDereference
deriving DecidableEq

/-- The fields of `artm::ModelConfig` consulted by
`MasterComponent::CreateOrReconfigureModel`. -/
structure ModelConfig where
  name : String
  class_id : List String
  class_weight : List ℚ
  use_sparse_bow : Bool
deriving DecidableEq

/-- `MasterComponent::CreateOrReconfigureModel`: reject class fields together
with dense (non-sparse) bag-of-words mode; a successful result models the
delegation `instance_->CreateOrReconfigureModel(config)` to the worker-pool
side, an error is thrown before that delegation. -/
def createOrReconfigureModel (config : ModelConfig) : Except MasterErr Unit :=
  if (config.class_weight.length ≠ 0 ∨ config.class_id.length ≠ 0) ∧
      config.use_sparse_bow = false then
    .error (.invalidOperation
      ("You have configured use_sparse_bow=false. " ++
       "Fields ModelConfig.class_id and ModelConfig.class_weight not supported in this mode."))
  else
    .ok ()

/-- The one field of `artm::WaitIdleArgs` consulted by
`MasterComponent::WaitIdle`. -/
structure WaitIdleArgs where
  timeout_milliseconds : Int
deriving DecidableEq

/-- `MasterComponent::WaitIdle`: two sequential sub-waits with a shared
timeout budget.  The data-loader sub-wait's boolean result and its elapsed
milliseconds, and the merger sub-wait itself, are external collaborators
passed as parameters.  The second component of the result records the timeout
passed to the merger sub-wait, `none` when it was never invoked. -/
def waitIdle (args : WaitIdleArgs) (dataLoaderWaitIdle : Bool) (elapsedMs : Nat)
    (mergerWaitIdle : Int → Bool) : Bool × Option Int :=
  let timeout := args.timeout_milliseconds
  if dataLoaderWaitIdle = false then (false, none)
  else
    let newTimeout := if timeout ≠ -1 then timeout - (elapsedMs : Int) else timeout
    (mergerWaitIdle newTimeout, some newTimeout)

/-- The fields of `artm::MergeModelArgs` consulted by
`MasterComponent::MergeModel`. -/
structure MergeModelArgs where
  nwt_target_name : String
  nwt_source_name : List String
  source_weight : List ℚ
  topic_name : List String
deriving DecidableEq

/-- The target allocation of the `MergeModel` source loop: the target matrix
is created at the first located source, its topic-name list taken from the
explicit override when non-empty and from that source otherwise. -/
def mergeAllocate (args : MergeModelArgs) (n_wt : PhiMatrix)
    (target : Option PhiMatrix) : PhiMatrix :=
  match target with
  | some t => t
  | none =>
    emptyMatrix args.nwt_target_name
      (if args.topic_name.length ≠ 0 then args.topic_name else n_wt.topicNames)

/-- One iteration of the `MergeModel` source loop: a source that resolves to
nothing is skipped (`LOG(WARNING)`); a located source allocates the target if
needed and, when it has at least one token, is accumulated in with its
weight. -/
def mergeStep (st : MasterState) (args : MergeModelArgs) (p : String × ℚ)
    (target : Option PhiMatrix) : Option PhiMatrix :=
  match resolveNwt st p.1 with
  | none => target
  | some n_wt =>
    let tgt := mergeAllocate args n_wt target
    some (if n_wt.tokens.length > 0 then applyTopicModelOperation n_wt.entries p.2 tgt else tgt)

/-- The source loop of `MasterComponent::MergeModel`: walk the
(source name, weight) pairs in argument order applying `mergeStep`. -/
def mergeSources (st : MasterState) (args : MergeModelArgs) :
    List (String × ℚ) → Option PhiMatrix → Option PhiMatrix
  | [], target => target
  | p :: rest, target => mergeSources st args rest (mergeStep st args p target)

/-- `MasterComponent::MergeModel`: argument validation, the source loop, and
the final publish; a successful result is the (target name, matrix) pair
handed to `SetPhiMatrix`. -/
def mergeModel (st : MasterState) (args : MergeModelArgs) :
    Except MasterErr (String × PhiMatrix) :=
  if args.nwt_source_name.length = 0 then
    .error (.invalidOperation "MergeModelArgs.nwt_source_name must not be empty")
  else if args.nwt_source_name.length ≠ args.source_weight.length then
    .error (.invalidOperation
      "MergeModelArgs.nwt_source_name_size() != MergeModelArgs.source_weight_size()")
  else
    match mergeSources st args (args.nwt_source_name.zip args.source_weight) none with
    | none => .error (.invalidOperation
        ("ArtmMergeModel() have not found any models to merge. " ++
         "Verify that at least one of the following models exist: " ++
         String.intercalate ", " args.nwt_source_name))
    | some t => .ok (args.nwt_target_name, t)

/-- The fields of `artm::RegularizeModelArgs` consulted by
`MasterComponent::RegularizeModel`; `none` models an unset optional field. -/
structure RegularizeModelArgs where
  pwt_source_name : Option String
  nwt_source_name : Option String
  rwt_target_name : Option String
deriving DecidableEq

/-- `MasterComponent::RegularizeModel`: field checks, resolution of the counts
and probability sources (each may exist as a versioned model or a raw
matrix), target allocation, regularizer invocation and publish.
`invokePhiRegularizers` (the external
`PhiMatrixOperations::InvokePhiRegularizers`) is a parameter.  The target
allocation reads `nwt_phi_matrix->topic_name()` and `Reshape(*nwt_phi_matrix)`
directly from the raw-matrix lookup result; when that lookup returned null the
C++ dereferences a null pointer, modelled here as `nullDereference`. -/
def regularizeModel (st : MasterState)
    (invokePhiRegularizers : PhiMatrix → PhiMatrix → PhiMatrix → PhiMatrix)
    (args : RegularizeModelArgs) : Except MasterErr (String × PhiMatrix) :=
  match args.pwt_source_name with
  | none => .error (.invalidOperation "RegularizeModelArgs.pwt_source_name is missing")
  | some pwt_source_name =>
    match args.nwt_source_name with
    | none => .error (.invalidOperation "RegularizeModelArgs.nwt_source_name is missing")
    | some nwt_source_name =>
      match args.rwt_target_name with
      | none => .error (.invalidOperation "RegularizeModelArgs.rwt_target_name is missing")
      | some rwt_target_name =>
        let nwt_phi_matrix := getPhiMatrix st nwt_source_name
        match getLatestTopicModel st nwt_source_name, nwt_phi_matrix with
        | none, none =>
          .error (.invalidOperation ("Model " ++ nwt_source_name ++ " does not exist"))
        | nwt_tm, _ =>
          let n_wt : PhiMatrix := match nwt_tm, nwt_phi_matrix with
            | some tm, _ => tm.nwt
            | none, some pm => pm
            | none, none => emptyMatrix "" []
          match getLatestTopicModel st pwt_source_name, getPhiMatrix st pwt_source_name with
          | none, none =>
            .error (.invalidOperation ("Model " ++ pwt_source_name ++ " does not exist"))
          | pwt_tm, pwt_phi =>
            let p_wt : PhiMatrix := match pwt_tm, pwt_phi with
              | some tm, _ => tm.pwt
              | none, some pm => pm
              | none, none => emptyMatrix "" []
            match nwt_phi_matrix with
            | none => .error .nullDereference
            | some npm =>
              let rwt_target := (emptyMatrix rwt_target_name npm.topicNames).reshape npm
              .ok (rwt_target_name, invokePhiRegularizers p_wt n_wt rwt_target)

/-- The fields of `artm::ProcessBatchesArgs` consulted by the validation and
dispatch phases of `MasterComponent::RequestProcessBatches`. -/
structure ProcessBatchesArgs where
  pwt_source_name : String
  nwt_target_name : Option String
  batch_filename : List String
  reset_scores : Bool
deriving DecidableEq

/-- The identifying fields of one queued `artm::core::ProcessorInput` work
item as set by `RequestProcessBatches`. -/
structure WorkItem where
  task_id : Nat
  batch_filename : String
  model_name : String
  nwt_target_name : Option String
deriving DecidableEq

/-- The observable side effects of one `RequestProcessBatches` call, in
program order: a matrix published through `SetPhiMatrix`, a task id
registered with the batch manager (`batch_manager.Add`), a work item pushed
onto the processor queue, and a score reset. -/
inductive Event
  | publish (name : String) (m : PhiMatrix)
  | registerTask (id : Nat)
  | enqueue (w : WorkItem)
  | resetScores (model : String)
deriving DecidableEq

/-- The dispatch loop of `RequestProcessBatches`: for the batch file at index
`i`, generate a fresh task id (`boost::uuids::random_generator`, modelled by
the generator `gen`), register it with the batch manager, and push the work
item onto the processor queue. -/
def dispatchEvents (modelName : String) (tgt : Option String) (gen : Nat → Nat) :
    Nat → List String → List Event
  | _, [] => []
  | i, b :: rest =>
    Event.registerTask (gen i) ::
    Event.enqueue { task_id := gen i, batch_filename := b,
                    model_name := modelName, nwt_target_name := tgt } ::
    dispatchEvents modelName tgt gen (i + 1) rest

/-- The phase of `RequestProcessBatches` after source resolution and target
publication: validation of the derived model configuration
(`Helpers::FixAndValidate`, an external collaborator modelled by the boolean
`fixAndValidateOk`), the optional score reset, and the dispatch loop. -/
def processBatchesTail (args : ProcessBatchesArgs) (gen : Nat → Nat)
    (fixAndValidateOk : Bool) : List Event × Option MasterErr :=
  if fixAndValidateOk = false then
    ([], some (.invalidOperation "ModelConfig is invalid"))
  else
    ((if args.reset_scores then [Event.resetScores args.pwt_source_name] else []) ++
       dispatchEvents args.pwt_source_name args.nwt_target_name gen 0 args.batch_filename,
     none)

/-- `MasterComponent::RequestProcessBatches` up to the completion wait: the
result pairs the trace of side effects performed, in order, with the error
thrown (`none` on success).  Resolution of the source, the target-name check,
and the immediate publication of the zero target matrix precede every
dispatch event, exactly as in the source. -/
def requestProcessBatches (st : MasterState) (args : ProcessBatchesArgs)
    (gen : Nat → Nat) (fixAndValidateOk : Bool) : List Event × Option MasterErr :=
  match resolvePwt st args.pwt_source_name with
  | none =>
    ([], some (.invalidOperation ("Model " ++ args.pwt_source_name ++ " does not exist")))
  | some p_wt =>
    match args.nwt_target_name with
    | some tgt =>
      if tgt = args.pwt_source_name then
        ([], some (.invalidOperation
          "ProcessBatchesArgs.pwt_source_name == ProcessBatchesArgs.nwt_target_name"))
      else
        let nwt_target := (emptyMatrix tgt p_wt.topicNames).reshape p_wt
        let tail := processBatchesTail args gen fixAndValidateOk
        (Event.publish tgt nwt_target :: tail.1, tail.2)
    | none => processBatchesTail args gen fixAndValidateOk

/-- Modelled from the spec: the Completion Tracker (`BatchManager`, not part
of the embedded sources) — the collection of outstanding task ids.  `Add`
registers an id, a worker acknowledgment removes it, and
`IsEverythingProcessed` holds when none is outstanding. -/
abbrev BatchManager := List Nat

/-- The task ids registered with the batch manager along a trace, in order. -/
def registeredIds (tr : List Event) : List Nat :=
  tr.filterMap (fun e => match e with | .registerTask id => some id | _ => none)

/-- The work items pushed onto the processor queue along a trace, in order. -/
def enqueuedItems (tr : List Event) : List WorkItem :=
  tr.filterMap (fun e => match e with | .enqueue w => some w | _ => none)

/-- The completion wait of `RequestProcessBatches`: poll
`IsEverythingProcessed`, sleeping while worker acknowledgments arrive.
`acks` is the finite prefix of acknowledgments delivered during successive
sleeps; the loop exits (`true`) only when the outstanding collection drains,
and a run that exhausts `acks` with items outstanding is still waiting
(`false`). -/
def waitLoop (bm : BatchManager) (acks : List Nat) : Bool :=
  if bm.isEmpty then true
  else match acks with
    | [] => false
    | a :: rest => waitLoop (bm.erase a) rest

/-! ### Persistence codec (`ExportModel` / `ImportModel`)

The export stream is a list of byte values: one version byte, then framed
records, each a decimal text length followed — with no separator — by the raw
serialized chunk bytes.  Formatted extraction (`fin >> version`,
`fin >> length`) is modelled with C++ stream semantics: whitespace skipping,
greedy digit consumption, and the eofbit/failbit outcomes the import loop
branches on. -/

/-- The whitespace bytes skipped by C++ formatted stream extraction. -/
def isWsByte (b : Nat) : Bool :=
  b == 9 || b == 10 || b == 11 || b == 12 || b == 13 || b == 32

/-- The ASCII decimal digit bytes. -/
def isDigitByte (b : Nat) : Bool := 48 ≤ b && b ≤ 57

/-- Little-endian decimal digits of `n` (empty for `0`); fuel-based so the
definition evaluates by kernel reduction. -/
def decDigitsAux : Nat → Nat → List Nat
  | 0, _ => []
  | fuel + 1, n => if n = 0 then [] else n % 10 :: decDigitsAux fuel (n / 10)

/-- Most-significant-first decimal digits of `n`, `[0]` for zero. -/
def decDigits (n : Nat) : List Nat :=
  if n = 0 then [0] else (decDigitsAux n n).reverse

/-- The bytes `fout << n` writes for a non-negative integer: its decimal
digits in ASCII. -/
def decimalBytes (n : Nat) : List Nat := (decDigits n).map (fun d => d + 48)

/-- Greedy digit consumption of `istream` integer extraction: fold digits
into `acc` until the first non-digit byte. -/
def parseDigits (acc : Nat) : List Nat → Nat × List Nat
  | [] => (acc, [])
  | b :: rest =>
    if isDigitByte b then parseDigits (acc * 10 + (b - 48)) rest else (acc, b :: rest)

/-- `fin >> length` for `int`: skip whitespace; an optional sign followed by
at least one digit yields a value, anything else is an extraction failure
(which since C++11 stores `0` into the variable).  The result pairs the
extracted value (`none` on failure) with the unconsumed bytes; eofbit is set
exactly when the unconsumed part is empty. -/
def extractInt (bytes : List Nat) : Option Int × List Nat :=
  match bytes.dropWhile (fun b => isWsByte b) with
  | [] => (none, [])
  | b :: tail =>
    if b == 45 || b == 43 then
      match tail with
      | [] => (none, b :: tail)
      | t :: _ =>
        if isDigitByte t then
          let p := parseDigits 0 tail
          (some (if b == 45 then -(p.1 : Int) else (p.1 : Int)), p.2)
        else (none, b :: tail)
    else if isDigitByte b then
      let p := parseDigits 0 (b :: tail)
      (some ((p.1 : Int)), p.2)
    else (none, b :: tail)

/-- `fin >> version` for `char`: skip whitespace and extract one byte;
`none` when the stream is exhausted first (extraction failure: the variable
keeps its previous, here uninitialized, value and eofbit is set). -/
def extractChar (bytes : List Nat) : Option Nat × List Nat :=
  match bytes.dropWhile (fun b => isWsByte b) with
  | [] => (none, [])
  | b :: rest => (some b, rest)

/-- Modelled from the spec: primitive cell encoders for the "self-contained
message" chunk codec (protobuf in the original, an external collaborator not
part of the embedded sources).  A natural number occupies one stream cell. -/
def encNat (n : Nat) : List Nat := [n]

/-- Decoder matching `encNat`. -/
def decNat : List Nat → Option (Nat × List Nat)
  | [] => none
  | n :: rest => some (n, rest)

/-- Modelled from the spec: an integer in one cell (sign folded into parity). -/
def encInt (i : Int) : List Nat := [2 * i.natAbs + (if i < 0 then 1 else 0)]

/-- Decoder matching `encInt`. -/
def decInt : List Nat → Option (Int × List Nat)
  | [] => none
  | n :: rest =>
    some ((if n % 2 = 0 then ((n / 2 : Nat) : Int) else -((n / 2 : Nat) : Int)), rest)

/-- Modelled from the spec: a rational weight stored as numerator and
denominator cells. -/
def encRat (q : ℚ) : List Nat := encInt q.num ++ encNat q.den

/-- Decoder matching `encRat`. -/
def decRat (l : List Nat) : Option (ℚ × List Nat) :=
  match decInt l with
  | none => none
  | some (n, l1) =>
    match decNat l1 with
    | none => none
    | some (d, l2) => some (mkRat n d, l2)

/-- Modelled from the spec: a string stored as a length cell followed by one
cell per character. -/
def encString (s : String) : List Nat := s.length :: s.data.map Char.toNat

/-- Decoder matching `encString`. -/
def decString : List Nat → Option (String × List Nat)
  | [] => none
  | n :: rest =>
    if n ≤ rest.length then
      some (String.mk ((rest.take n).map Char.ofNat), rest.drop n)
    else none

/-- Modelled from the spec: a list stored as a count cell followed by the
encoded elements. -/
def encListWith (enc : α → List Nat) (xs : List α) : List Nat :=
  xs.length :: (xs.map enc).flatten

/-- Counted element decoding for `encListWith`. -/
def decCount (dec : List Nat → Option (α × List Nat)) :
    Nat → List Nat → Option (List α × List Nat)
  | 0, l => some ([], l)
  | n + 1, l =>
    match dec l with
    | none => none
    | some (x, l1) =>
      match decCount dec n l1 with
      | none => none
      | some (xs, l2) => some (x :: xs, l2)

/-- Decoder matching `encListWith`. -/
def decListWith (dec : List Nat → Option (α × List Nat)) (l : List Nat) :
    Option (List α × List Nat) :=
  match l with
  | [] => none
  | n :: rest => decCount dec n rest

/-- Modelled from the spec: the self-contained chunk message serialized by
one `fout << str` — the slice's topic-name list and its (token, dense weight
row) entries (an `::artm::TopicModel` in sparse on-wire form in the
original). -/
structure ChunkMsg where
  topicNames : List String
  entries : List (Token × List ℚ)
deriving DecidableEq

/-- Modelled from the spec: one (token, weight row) entry of a chunk. -/
def encEntry (e : Token × List ℚ) : List Nat :=
  encString e.1.1 ++ encString e.1.2 ++ encListWith encRat e.2

/-- Decoder matching `encEntry`. -/
def decEntry (l : List Nat) : Option ((Token × List ℚ) × List Nat) :=
  match decString l with
  | none => none
  | some (kw, l1) =>
    match decString l1 with
    | none => none
    | some (cid, l2) =>
      match decListWith decRat l2 with
      | none => none
      | some (row, l3) => some (((kw, cid), row), l3)

/-- Modelled from the spec: the serialized bytes of one chunk message — a
fixed leading tag cell (10, the first field tag of the protobuf message in
the original, and never an ASCII digit) followed by the payload. -/
def serializeChunk (c : ChunkMsg) : List Nat :=
  10 :: (encListWith encString c.topicNames ++ encListWith encEntry c.entries)

/-- Modelled from the spec: `TopicModel::ParseFromArray` — parse the tag and
payload and require the entire buffer to be consumed; anything else is a
parse failure. -/
def parseChunk (l : List Nat) : Option ChunkMsg :=
  match l with
  | 10 :: rest =>
    (match decListWith decString rest with
     | none => none
     | some (tn, l1) =>
       match decListWith decEntry l1 with
       | none => none
       | some (es, l2) => if l2.isEmpty then some ⟨tn, es⟩ else none)
  | _ => none

/-- The chunking loop of `MasterComponent::ExportModel`: walk the (token,
row) entries accumulating a slice, flushing it whenever the current token is
the last one or the slice has reached `tokens_per_chunk` entries. -/
def exportChunks (tpc : Nat) : List (Token × List ℚ) → List (Token × List ℚ) →
    List (List (Token × List ℚ))
  | _, [] => []
  | acc, e :: rest =>
    let acc1 := acc ++ [e]
    if rest = [] ∨ tpc ≤ acc1.length then acc1 :: exportChunks tpc [] rest
    else exportChunks tpc acc1 rest

/-- One framed record of the export stream: the decimal text byte length of
the serialized chunk followed, with no separator, by its raw bytes
(`fout << str.size(); fout << str;`). -/
def frameChunk (c : ChunkMsg) : List Nat :=
  decimalBytes (serializeChunk c).length ++ serializeChunk c

/-- `MasterComponent::ExportModel`, the stream-writing part after the
file-existence, open and model-resolution checks: fail for a token-free
matrix, otherwise write the version byte 0 followed by one framed record per
chunk, with at most `min(token_size, 100 * 1024 * 1024 / topic_size)` tokens
per chunk.  (The C++ quotient is undefined for a matrix with no topics; Lean
division by zero yields 0, which only makes the chunks smaller.) -/
def exportModel (m : PhiMatrix) : Except MasterErr (List Nat) :=
  if m.tokens.length = 0 then
    .error (.invalidOperation ("Model " ++ m.name ++ " has no tokens, export failed"))
  else
    let tokensPerChunk := min m.tokens.length (100 * 1024 * 1024 / m.topicNames.length)
    .ok (0 :: ((exportChunks tokensPerChunk [] m.entries).map
        (fun es => frameChunk ⟨m.topicNames, es⟩)).flatten)

/-- The read loop of `MasterComponent::ImportModel`, fuel-based so it
evaluates by kernel reduction (every iteration that recurses consumes at
least two cells, so any fuel above the stream length suffices).  One
iteration mirrors the C++ loop body: extract a decimal length — breaking
cleanly when the stream is exhausted before a value is found or, via eofbit,
exactly at its end right after the digits — reject a non-positive length as
corrupted, read exactly `length` cells (`fin.read` leaves the tail of the
zero-initialized buffer untouched when the stream runs short), parse them as
a chunk message, allocate the target from the first chunk's topic names, and
accumulate the chunk additively with weight 1. -/
def importLoop (modelName : String) : Nat → List Nat → Option PhiMatrix →
    Except MasterErr (Option PhiMatrix)
  | 0, _, _ => .error (.internalError "out of fuel")
  | fuel + 1, bytes, target =>
    match extractInt bytes with
    | (none, rest) =>
      if rest = [] then .ok target
      else .error (.corruptedMessage "Unable to read from file")
    | (some v, rest) =>
      if rest = [] then .ok target
      else if v ≤ 0 then .error (.corruptedMessage "Unable to read from file")
      else
        let len := v.toNat
        let buffer := rest.take len ++ List.replicate (len - rest.length) 0
        match parseChunk buffer with
        | none => .error (.corruptedMessage "Unable to read from file")
        | some chunk =>
          let tgt := match target with
            | none => emptyMatrix modelName chunk.topicNames
            | some t => t
          importLoop modelName fuel (rest.drop len)
            (some (applyTopicModelOperation chunk.entries 1 tgt))

/-- `MasterComponent::ImportModel`, the stream-reading part after the open
check: read the version byte (on an exhausted stream the extraction fails,
the uninitialized `version` variable — modelled by the arbitrary
`junkVersion` — is consulted anyway, and eofbit keeps the read loop from
running), reject a non-zero version as a disk-read error ("Unsupported
fromat version", sic), run the read loop, fail as corrupted when no chunk
was ever read, and otherwise publish: a successful result is the matrix
handed to `SetPhiMatrix` under the requested model name. -/
def importModel (junkVersion : Nat) (modelName : String) (bytes : List Nat) :
    Except MasterErr PhiMatrix :=
  let vr := extractChar bytes
  let version := vr.1.getD junkVersion
  if version ≠ 0 then
    .error (.diskRead "Unsupported fromat version")
  else
    let loopResult : Except MasterErr (Option PhiMatrix) :=
      match vr.1 with
      | none => .ok none
      | some _ => importLoop modelName (vr.2.length + 1) vr.2 none
    match loopResult with
    | .error e => .error e
    | .ok none => .error (.corruptedMessage "Unable to read from file")
    | .ok (some target) => .ok target

/-- A small matrix fixture used to instantiate the theorems on concrete
inputs. -/
def samplePwt : PhiMatrix :=
  { name := "pwt", topicNames := ["t1", "t2"],
    tokens := [("w1", "c"), ("w2", "c")], weights := [[1, 0], [0, 2]] }

/-- A store fixture holding `samplePwt` as a raw matrix under `"pwt"`. -/
def sampleSt : MasterState := { topicModels := [], phiMatrices := [("pwt", samplePwt)] }

/-- A store fixture holding a counts matrix only as a versioned topic model
under `"nwt"`, and a raw probability matrix under `"pwt"`. -/
def sampleStVersioned : MasterState :=
  { topicModels := [("nwt", { pwt := samplePwt, nwt := samplePwt })],
    phiMatrices := [("pwt", samplePwt)] }

/-! ### Helper lemmas -/

theorem applyRow_topicNames (m : PhiMatrix) (w : ℚ) (tok : Token) (row : List ℚ) :
    (m.applyRow w tok row).topicNames = m.topicNames := by
  unfold PhiMatrix.applyRow
  split <;> rfl

theorem applyTopicModelOperation_topicNames (w : ℚ) :
    ∀ (entries : List (Token × List ℚ)) (target : PhiMatrix),
      (applyTopicModelOperation entries w target).topicNames = target.topicNames := by
  intro entries
  induction entries with
  | nil => intro target; rfl
  | cons e rest ih =>
    intro target
    show (applyTopicModelOperation rest w (target.applyRow w e.1 e.2)).topicNames = _
    rw [ih, applyRow_topicNames]

theorem mergeStep_some (st : MasterState) (args : MergeModelArgs) (p : String × ℚ)
    (t : PhiMatrix) : ∃ t2, mergeStep st args p (some t) = some t2 ∧
      t2.topicNames = t.topicNames := by
  rw [mergeStep]
  cases resolveNwt st p.1 with
  | none => exact ⟨t, rfl, rfl⟩
  | some n_wt =>
    refine ⟨_, rfl, ?_⟩
    by_cases htok : n_wt.tokens.length > 0
    · simp only [htok, if_true, mergeAllocate]
      exact applyTopicModelOperation_topicNames _ _ _
    · simp [htok, mergeAllocate]

theorem mergeSources_some_isSome (st : MasterState) (args : MergeModelArgs) :
    ∀ (pairs : List (String × ℚ)) (t : PhiMatrix),
      ∃ t2, mergeSources st args pairs (some t) = some t2 ∧ t2.topicNames = t.topicNames := by
  intro pairs
  induction pairs with
  | nil => exact fun t => ⟨t, rfl, rfl⟩
  | cons p rest ih =>
    intro t
    obtain ⟨t1, ht1, htn1⟩ := mergeStep_some st args p t
    obtain ⟨t2, ht2, htn2⟩ := ih t1
    refine ⟨t2, ?_, htn2.trans htn1⟩
    show mergeSources st args rest (mergeStep st args p (some t)) = some t2
    rw [ht1]
    exact ht2

theorem mergeSources_none_iff (st : MasterState) (args : MergeModelArgs) :
    ∀ pairs : List (String × ℚ),
      (mergeSources st args pairs none = none ↔ ∀ p ∈ pairs, resolveNwt st p.1 = none) := by
  intro pairs
  induction pairs with
  | nil => simp [mergeSources]
  | cons p rest ih =>
    show (mergeSources st args rest (mergeStep st args p none) = none ↔ _)
    rw [mergeStep]
    cases hres : resolveNwt st p.1 with
    | none => simpa [hres] using ih
    | some n_wt =>
      obtain ⟨t2, ht2, _⟩ := mergeSources_some_isSome st args rest _
      constructor
      · intro hcon
        rw [ht2] at hcon
        cases hcon
      · intro hall
        exact absurd (hall p (by simp)) (by simp [hres])

theorem mergeSources_first_located_topicNames (st : MasterState) (args : MergeModelArgs) :
    ∀ (pairs : List (String × ℚ)) (t : PhiMatrix),
      mergeSources st args pairs none = some t →
      ∃ n_wt, pairs.findSome? (fun p => resolveNwt st p.1) = some n_wt ∧
        t.topicNames =
          (if args.topic_name.length ≠ 0 then args.topic_name else n_wt.topicNames) := by
  intro pairs
  induction pairs with
  | nil =>
    intro t h
    rw [mergeSources] at h
    cases h
  | cons p rest ih =>
    intro t h
    have h2 : mergeSources st args rest (mergeStep st args p none) = some t := h
    rw [mergeStep] at h2
    cases hres : resolveNwt st p.1 with
    | none =>
      rw [hres] at h2
      obtain ⟨n_wt, h1, hname⟩ := ih t h2
      exact ⟨n_wt, by rw [List.findSome?_cons, hres]; exact h1, hname⟩
    | some n_wt =>
      rw [hres] at h2
      refine ⟨n_wt, by rw [List.findSome?_cons, hres], ?_⟩
      obtain ⟨t2, ht2, htn⟩ := mergeSources_some_isSome st args rest
        (if n_wt.tokens.length > 0 then
          applyTopicModelOperation n_wt.entries p.2 (mergeAllocate args n_wt none)
        else mergeAllocate args n_wt none)
      rw [ht2] at h2
      cases h2
      rw [htn]
      by_cases htok : n_wt.tokens.length > 0
      · simp only [htok, if_pos]
        rw [applyTopicModelOperation_topicNames]
        rfl
      · simp only [htok, if_neg]
        rfl

theorem findSome?_zip_fst {β γ : Type} (f : String → Option γ) :
    ∀ (l1 : List String) (l2 : List β), l1.length ≤ l2.length →
      (l1.zip l2).findSome? (fun p => f p.1) = l1.findSome? f := by
  intro l1
  induction l1 with
  | nil => intro l2 _; rfl
  | cons a l1 ih =>
    intro l2 hlen
    cases l2 with
    | nil => simp at hlen
    | cons b l2 =>
      simp only [List.zip_cons_cons, List.findSome?_cons]
      cases f a with
      | none => exact ih l2 (by simpa using hlen)
      | some c => rfl

theorem registeredIds_dispatchEvents (mn : String) (tgt : Option String) (gen : Nat → Nat) :
    ∀ (i : Nat) (bs : List String),
      registeredIds (dispatchEvents mn tgt gen i bs) = (List.range' i bs.length).map gen := by
  intro i bs
  induction bs generalizing i with
  | nil => rfl
  | cons b rest ih =>
    simp only [dispatchEvents, registeredIds, List.filterMap_cons, List.length_cons,
      List.range'_succ, List.map_cons]
    exact congrArg _ (ih (i + 1))

theorem enqueuedItems_dispatchEvents (mn : String) (tgt : Option String) (gen : Nat → Nat) :
    ∀ (i : Nat) (bs : List String),
      (enqueuedItems (dispatchEvents mn tgt gen i bs)).map (fun w => w.task_id) =
        (List.range' i bs.length).map gen ∧
      (enqueuedItems (dispatchEvents mn tgt gen i bs)).length = bs.length := by
  intro i bs
  induction bs generalizing i with
  | nil => exact ⟨rfl, rfl⟩
  | cons b rest ih =>
    obtain ⟨ih1, ih2⟩ := ih (i + 1)
    constructor
    · simp only [dispatchEvents, enqueuedItems, List.filterMap_cons, List.length_cons,
        List.range'_succ, List.map_cons]
      exact congrArg _ ih1
    · simp only [dispatchEvents, enqueuedItems, List.filterMap_cons, List.length_cons]
      simpa using ih2

theorem waitLoop_true_all_acked (acks : List Nat) :
    ∀ (bm : BatchManager), waitLoop bm acks = true → ∀ id ∈ bm, id ∈ acks := by
  induction acks with
  | nil =>
    intro bm h id hid
    rw [waitLoop] at h
    by_cases hbm : bm.isEmpty
    · rw [List.isEmpty_iff] at hbm
      subst hbm
      cases hid
    · simp [hbm] at h
  | cons a rest ih =>
    intro bm h id hid
    rw [waitLoop] at h
    by_cases hbm : bm.isEmpty
    · rw [List.isEmpty_iff] at hbm
      subst hbm
      cases hid
    · simp only [hbm, if_neg, Bool.false_eq_true] at h
      by_cases hcase : id = a
      · exact hcase ▸ List.mem_cons_self a rest
      · have : id ∈ bm.erase a := (List.mem_erase_of_ne hcase).mpr hid
        exact List.mem_cons_of_mem a (ih (bm.erase a) h id this)

theorem registeredIds_append (l1 l2 : List Event) :
    registeredIds (l1 ++ l2) = registeredIds l1 ++ registeredIds l2 :=
  List.filterMap_append _ _ _

theorem enqueuedItems_append (l1 l2 : List Event) :
    enqueuedItems (l1 ++ l2) = enqueuedItems l1 ++ enqueuedItems l2 :=
  List.filterMap_append _ _ _

theorem registeredIds_reset_scores (m : String) (c : Bool) :
    registeredIds (if c = true then [Event.resetScores m] else []) = [] := by
  cases c <;> rfl

theorem enqueuedItems_reset_scores (m : String) (c : Bool) :
    enqueuedItems (if c = true then [Event.resetScores m] else []) = [] := by
  cases c <;> rfl

/-! ### Claim theorems -/

/-- C8: `CreateOrReconfigureModel` fails with an invalid-operation error,
before any interaction with the worker pool (the delegation to the instance
is never reached), for every model configuration that sets per-class weights
while dense (non-sparse bag-of-words) mode is selected. -/
theorem createOrReconfigureModel_rejects_dense_class_weights (config : ModelConfig)
    (hw : config.class_weight ≠ []) (hd : config.use_sparse_bow = false) :
    createOrReconfigureModel config =
      .error (.invalidOperation
        ("You have configured use_sparse_bow=false. " ++
         "Fields ModelConfig.class_id and ModelConfig.class_weight not supported in this mode.")) := by
  rw [createOrReconfigureModel, if_pos]
  exact ⟨Or.inl (by simpa [List.length_eq_zero] using hw), hd⟩

theorem createOrReconfigureModel_rejects_dense_class_weights_witness :
    createOrReconfigureModel
      { name := "m", class_id := [], class_weight := [1], use_sparse_bow := false } =
      .error (.invalidOperation
        ("You have configured use_sparse_bow=false. " ++
         "Fields ModelConfig.class_id and ModelConfig.class_weight not supported in this mode.")) :=
  createOrReconfigureModel_rejects_dense_class_weights _ (by decide) rfl

/-- C7: `WaitIdle` returns false with the merger sub-wait never invoked when
the data-loader sub-wait reports not-idle; otherwise the elapsed time of the
first sub-wait is subtracted from the budget passed to the merger sub-wait —
in particular a 1000 ms budget with at least 400 ms elapsed passes at most
600 ms — while the unbounded sentinel −1 is passed through undecremented. -/
theorem waitIdle_shares_timeout_budget (args : WaitIdleArgs) (elapsed : Nat)
    (w2 : Int → Bool) :
    (waitIdle args false elapsed w2 = (false, none)) ∧
    (args.timeout_milliseconds ≠ -1 →
      (waitIdle args true elapsed w2).2 = some (args.timeout_milliseconds - (elapsed : Int))) ∧
    (args.timeout_milliseconds = 1000 → 400 ≤ elapsed →
      ∀ t, (waitIdle args true elapsed w2).2 = some t → t ≤ 600) ∧
    (args.timeout_milliseconds = -1 → (waitIdle args true elapsed w2).2 = some (-1)) := by
  refine ⟨rfl, ?_, ?_, ?_⟩
  · intro h
    simp [waitIdle, h]
  · intro h1000 h400 t ht
    simp [waitIdle, h1000] at ht
    omega
  · intro hneg
    simp [waitIdle, hneg]

theorem waitIdle_shares_timeout_budget_witness :
    (waitIdle { timeout_milliseconds := 1000 } true 400 (fun _ => true)).2 = some 600 ∧
    (waitIdle { timeout_milliseconds := -1 } true 400 (fun _ => true)).2 = some (-1) := by
  have h1 := (waitIdle_shares_timeout_budget { timeout_milliseconds := 1000 } 400
    (fun _ => true)).2.1 (by decide)
  have h2 := (waitIdle_shares_timeout_budget { timeout_milliseconds := -1 } 400
    (fun _ => true)).2.2.2 rfl
  exact ⟨by rw [h1]; rfl, h2⟩

/-- C10: `MergeModel` fails with invalid-operation, before reading or
publishing any matrix (the result does not depend on the store at all),
whenever the source-name list is empty or its length differs from the
weight list's. -/
theorem mergeModel_argument_validation (args : MergeModelArgs) :
    (args.nwt_source_name = [] →
      ∀ st, mergeModel st args =
        .error (.invalidOperation "MergeModelArgs.nwt_source_name must not be empty")) ∧
    (args.nwt_source_name ≠ [] →
      args.nwt_source_name.length ≠ args.source_weight.length →
      ∀ st, mergeModel st args =
        .error (.invalidOperation
          "MergeModelArgs.nwt_source_name_size() != MergeModelArgs.source_weight_size()")) := by
  constructor
  · intro hnil st
    rw [mergeModel, if_pos (by simp [hnil])]
  · intro hne hmis st
    rw [mergeModel, if_neg (by simpa [List.length_eq_zero] using hne), if_pos hmis]

theorem mergeModel_argument_validation_witness :
    mergeModel sampleSt
      { nwt_target_name := "tgt", nwt_source_name := [], source_weight := [],
        topic_name := [] } =
      .error (.invalidOperation "MergeModelArgs.nwt_source_name must not be empty") ∧
    mergeModel sampleSt
      { nwt_target_name := "tgt", nwt_source_name := ["a"], source_weight := [],
        topic_name := [] } =
      .error (.invalidOperation
        "MergeModelArgs.nwt_source_name_size() != MergeModelArgs.source_weight_size()") := by
  have h1 := (mergeModel_argument_validation
    { nwt_target_name := "tgt", nwt_source_name := [], source_weight := [],
      topic_name := [] }).1 rfl sampleSt
  have h2 := (mergeModel_argument_validation
    { nwt_target_name := "tgt", nwt_source_name := ["a"], source_weight := [],
      topic_name := [] }).2 (by decide) (by decide) sampleSt
  exact ⟨h1, h2⟩

/-- C5: for every `MergeModel` call with a non-empty source list (and
matching weight count), each named source that does not exist is skipped
without failing the call, and the call fails with invalid-operation — its
message naming all requested sources — exactly when none of the named
sources exists. -/
theorem mergeModel_skips_missing_fails_iff_none (st : MasterState) (args : MergeModelArgs)
    (hne : args.nwt_source_name ≠ [])
    (hlen : args.nwt_source_name.length = args.source_weight.length) :
    (mergeModel st args = .error (.invalidOperation
        ("ArtmMergeModel() have not found any models to merge. " ++
         "Verify that at least one of the following models exist: " ++
         String.intercalate ", " args.nwt_source_name)) ↔
      ∀ name ∈ args.nwt_source_name, resolveNwt st name = none) ∧
    ((∃ name ∈ args.nwt_source_name, resolveNwt st name ≠ none) →
      ∃ t, mergeModel st args = .ok (args.nwt_target_name, t)) := by
  have hmapfst : (args.nwt_source_name.zip args.source_weight).map Prod.fst =
      args.nwt_source_name :=
    List.map_fst_zip _ _ (le_of_eq hlen)
  have hforall : (∀ p ∈ args.nwt_source_name.zip args.source_weight,
      resolveNwt st p.1 = none) ↔
      (∀ name ∈ args.nwt_source_name, resolveNwt st name = none) := by
    constructor
    · intro h name hname
      rw [← hmapfst] at hname
      obtain ⟨p, hp, rfl⟩ := List.mem_map.mp hname
      exact h p hp
    · intro h p hp
      refine h p.1 ?_
      rw [← hmapfst]
      exact List.mem_map_of_mem _ hp
  rw [mergeModel, if_neg (by simpa [List.length_eq_zero] using hne),
    if_neg (by omega)]
  cases hms : mergeSources st args (args.nwt_source_name.zip args.source_weight) none with
  | none =>
    constructor
    · constructor
      · intro _
        exact hforall.mp ((mergeSources_none_iff st args _).mp hms)
      · intro _
        rfl
    · intro ⟨name, hmem, hsome⟩
      exact absurd (hforall.mp ((mergeSources_none_iff st args _).mp hms) name hmem) hsome
  | some t =>
    constructor
    · constructor
      · intro hcon
        cases hcon
      · intro hall
        rw [(mergeSources_none_iff st args _).mpr (hforall.mpr hall)] at hms
        cases hms
    · intro _
      exact ⟨t, rfl⟩

theorem mergeModel_skips_missing_fails_iff_none_witness :
    (∃ t, mergeModel sampleSt
      { nwt_target_name := "tgt", nwt_source_name := ["nope", "pwt"],
        source_weight := [2, 3], topic_name := [] } = .ok ("tgt", t)) ∧
    (mergeModel sampleSt
      { nwt_target_name := "tgt", nwt_source_name := ["nope", "gone"],
        source_weight := [2, 3], topic_name := [] } =
      .error (.invalidOperation
        ("ArtmMergeModel() have not found any models to merge. " ++
         "Verify that at least one of the following models exist: " ++
         String.intercalate ", " ["nope", "gone"]))) := by
  have h1 := (mergeModel_skips_missing_fails_iff_none sampleSt
    { nwt_target_name := "tgt", nwt_source_name := ["nope", "pwt"],
      source_weight := [2, 3], topic_name := [] } (by decide) rfl).2
    ⟨"pwt", by decide, by decide⟩
  have h2 := (mergeModel_skips_missing_fails_iff_none sampleSt
    { nwt_target_name := "tgt", nwt_source_name := ["nope", "gone"],
      source_weight := [2, 3], topic_name := [] } (by decide) rfl).1.mpr
    (by decide)
  exact ⟨h1, h2⟩

/-- C6: for every `MergeModel` call in which at least one source exists (the
first located one, in argument order, being `n_wt`), the published target's
topic-name list equals the explicit override when one is given and
`n_wt`'s topic-name list otherwise. -/
theorem mergeModel_target_topic_names (st : MasterState) (args : MergeModelArgs)
    (hlen : args.nwt_source_name.length = args.source_weight.length)
    (n_wt : PhiMatrix)
    (hfound : args.nwt_source_name.findSome? (resolveNwt st) = some n_wt) :
    ∃ t, mergeModel st args = .ok (args.nwt_target_name, t) ∧
      t.topicNames =
        (if args.topic_name.length ≠ 0 then args.topic_name else n_wt.topicNames) := by
  have hne : args.nwt_source_name ≠ [] := by
    intro hnil
    rw [hnil] at hfound
    cases hfound
  rw [mergeModel, if_neg (by simpa [List.length_eq_zero] using hne),
    if_neg (by omega)]
  cases hms : mergeSources st args (args.nwt_source_name.zip args.source_weight) none with
  | none =>
    have hall := (mergeSources_none_iff st args _).mp hms
    have hz : (args.nwt_source_name.zip args.source_weight).findSome?
        (fun p => resolveNwt st p.1) = none :=
      List.findSome?_eq_none_iff.mpr (fun p hp => hall p hp)
    rw [findSome?_zip_fst (resolveNwt st) _ _ (le_of_eq hlen)] at hz
    rw [hz] at hfound
    cases hfound
  | some t =>
    obtain ⟨n_wt2, hfound2, hname⟩ := mergeSources_first_located_topicNames st args _ t hms
    rw [findSome?_zip_fst (resolveNwt st) _ _ (le_of_eq hlen)] at hfound2
    rw [hfound] at hfound2
    cases hfound2
    exact ⟨t, rfl, hname⟩

theorem mergeModel_target_topic_names_witness :
    (∃ t, mergeModel sampleSt
      { nwt_target_name := "tgt", nwt_source_name := ["nope", "pwt"],
        source_weight := [2, 3], topic_name := [] } = .ok ("tgt", t) ∧
      t.topicNames = samplePwt.topicNames) ∧
    (∃ t, mergeModel sampleSt
      { nwt_target_name := "tgt", nwt_source_name := ["pwt"],
        source_weight := [2], topic_name := ["o1", "o2"] } = .ok ("tgt", t) ∧
      t.topicNames = ["o1", "o2"]) := by
  have h1 := mergeModel_target_topic_names sampleSt
    { nwt_target_name := "tgt", nwt_source_name := ["nope", "pwt"],
      source_weight := [2, 3], topic_name := [] } rfl samplePwt (by decide)
  have h2 := mergeModel_target_topic_names sampleSt
    { nwt_target_name := "tgt", nwt_source_name := ["pwt"],
      source_weight := [2], topic_name := ["o1", "o2"] } rfl samplePwt (by decide)
  constructor
  · obtain ⟨t, ht, htn⟩ := h1
    exact ⟨t, ht, by simpa using htn⟩
  · obtain ⟨t, ht, htn⟩ := h2
    exact ⟨t, ht, by simpa using htn⟩

/-- C1: dispatching N batch references against an existing source matrix
registers exactly N freshly generated distinct task identifiers with the
completion tracker, enqueues exactly N work items carrying those identifiers,
throws no error, and the completion wait returns only once every registered
identifier has been acknowledged. -/
theorem requestProcessBatches_registers_and_waits_all (st : MasterState)
    (args : ProcessBatchesArgs) (gen : Nat → Nat) (out : List Event × Option MasterErr)
    (hgen : Function.Injective gen) (p_wt : PhiMatrix)
    (hsrc : resolvePwt st args.pwt_source_name = some p_wt)
    (htgt : args.nwt_target_name ≠ some args.pwt_source_name)
    (hout : out = requestProcessBatches st args gen true) :
    out.2 = none ∧
    registeredIds out.1 = (List.range args.batch_filename.length).map gen ∧
    (registeredIds out.1).length = args.batch_filename.length ∧
    (registeredIds out.1).Nodup ∧
    (enqueuedItems out.1).length = args.batch_filename.length ∧
    (enqueuedItems out.1).map (fun w => w.task_id) = registeredIds out.1 ∧
    (∀ acks, waitLoop (registeredIds out.1) acks = true →
      ∀ id ∈ registeredIds out.1, id ∈ acks) := by
  have htail0 : (processBatchesTail args gen true).1 =
      (if args.reset_scores = true then [Event.resetScores args.pwt_source_name] else []) ++
        dispatchEvents args.pwt_source_name args.nwt_target_name gen 0 args.batch_filename := by
    rw [processBatchesTail, if_neg (by decide)]
  have htail1 : registeredIds (processBatchesTail args gen true).1 =
      (List.range' 0 args.batch_filename.length).map gen := by
    rw [htail0, registeredIds_append, registeredIds_reset_scores, List.nil_append,
      registeredIds_dispatchEvents]
  have htail2 := enqueuedItems_dispatchEvents args.pwt_source_name args.nwt_target_name
    gen 0 args.batch_filename
  have htail2' : enqueuedItems (processBatchesTail args gen true).1 =
      enqueuedItems (dispatchEvents args.pwt_source_name args.nwt_target_name
        gen 0 args.batch_filename) := by
    rw [htail0, enqueuedItems_append, enqueuedItems_reset_scores, List.nil_append]
  have htail3 : (processBatchesTail args gen true).2 = none := by
    rw [processBatchesTail, if_neg (by decide)]
  have hshape : out.2 = (processBatchesTail args gen true).2 ∧
      registeredIds out.1 = registeredIds (processBatchesTail args gen true).1 ∧
      enqueuedItems out.1 = enqueuedItems (processBatchesTail args gen true).1 := by
    subst hout
    cases hnt : args.nwt_target_name with
    | none =>
      simp only [requestProcessBatches, hsrc, hnt]
      exact ⟨trivial, trivial, trivial⟩
    | some tgt =>
      have hne : tgt ≠ args.pwt_source_name := fun he => htgt (by rw [hnt, he])
      simp only [requestProcessBatches, hsrc, hnt, if_neg hne]
      exact ⟨trivial, by simp [registeredIds], by simp [enqueuedItems]⟩
  obtain ⟨hs1, hs2, hs3⟩ := hshape
  have hrange : (List.range' 0 args.batch_filename.length) =
      List.range args.batch_filename.length := (List.range_eq_range' _).symm
  refine ⟨hs1.trans htail3, ?_, ?_, ?_, ?_, ?_, ?_⟩
  · rw [hs2, htail1, hrange]
  · rw [hs2, htail1]
    simp
  · rw [hs2, htail1]
    exact List.Nodup.map hgen (List.nodup_range' 0 args.batch_filename.length)
  · rw [hs3, htail2', htail2.2]
  · rw [hs3, htail2', htail2.1, hs2, htail1]
  · intro acks h
    exact waitLoop_true_all_acked acks _ h

theorem requestProcessBatches_registers_and_waits_all_witness :
    (requestProcessBatches sampleSt
      { pwt_source_name := "pwt", nwt_target_name := some "nwt",
        batch_filename := ["b1", "b2"], reset_scores := false } (fun n => n) true).2 = none ∧
    registeredIds (requestProcessBatches sampleSt
      { pwt_source_name := "pwt", nwt_target_name := some "nwt",
        batch_filename := ["b1", "b2"], reset_scores := false } (fun n => n) true).1 =
      [0, 1] := by
  have h := requestProcessBatches_registers_and_waits_all sampleSt
    { pwt_source_name := "pwt", nwt_target_name := some "nwt",
      batch_filename := ["b1", "b2"], reset_scores := false } (fun n => n) _
    (fun _ _ hab => hab) samplePwt (by decide) (by decide) rfl
  exact ⟨h.1, by simpa using h.2.1⟩

/-- C2: `RequestProcessBatches` validation order — a missing source matrix
fails as invalid-operation with an empty side-effect trace (so before any
work item is enqueued); a target name equal to the source name fails as
invalid-operation with an empty trace; and with a distinct target name given,
the zero-initialized matrix reshaped to the source's topic layout is
published under the target name as the very first side effect, before any
work item is enqueued. -/
theorem requestProcessBatches_validation_and_publish (st : MasterState)
    (args : ProcessBatchesArgs) (gen : Nat → Nat) (v : Bool) :
    (resolvePwt st args.pwt_source_name = none →
      requestProcessBatches st args gen v =
        ([], some (.invalidOperation
          ("Model " ++ args.pwt_source_name ++ " does not exist")))) ∧
    (∀ p_wt, resolvePwt st args.pwt_source_name = some p_wt →
      args.nwt_target_name = some args.pwt_source_name →
      requestProcessBatches st args gen v =
        ([], some (.invalidOperation
          "ProcessBatchesArgs.pwt_source_name == ProcessBatchesArgs.nwt_target_name"))) ∧
    (∀ p_wt tgt, resolvePwt st args.pwt_source_name = some p_wt →
      args.nwt_target_name = some tgt → tgt ≠ args.pwt_source_name →
      ∃ tr, (requestProcessBatches st args gen v).1 =
          Event.publish tgt ((emptyMatrix tgt p_wt.topicNames).reshape p_wt) :: tr ∧
        ((emptyMatrix tgt p_wt.topicNames).reshape p_wt).topicNames = p_wt.topicNames ∧
        ((emptyMatrix tgt p_wt.topicNames).reshape p_wt).tokens = p_wt.tokens ∧
        (∀ row ∈ ((emptyMatrix tgt p_wt.topicNames).reshape p_wt).weights,
          ∀ x ∈ row, x = (0 : ℚ))) := by
  refine ⟨?_, ?_, ?_⟩
  · intro hnone
    simp [requestProcessBatches, hnone]
  · intro p_wt hsome heq
    simp [requestProcessBatches, hsome, heq]
  · intro p_wt tgt hsome heq hne
    simp only [requestProcessBatches, hsome, heq, if_neg hne]
    refine ⟨(processBatchesTail args gen v).1, rfl, rfl, rfl, ?_⟩
    intro row hrow x hx
    simp only [PhiMatrix.reshape, emptyMatrix, List.mem_map] at hrow
    obtain ⟨_, _, rfl⟩ := hrow
    simp only [List.mem_map] at hx
    obtain ⟨_, _, rfl⟩ := hx
    rfl

theorem requestProcessBatches_validation_and_publish_witness :
    (requestProcessBatches sampleSt
      { pwt_source_name := "missing", nwt_target_name := none,
        batch_filename := ["b1"], reset_scores := false } (fun n => n) true =
      ([], some (.invalidOperation ("Model " ++ "missing" ++ " does not exist")))) ∧
    (requestProcessBatches sampleSt
      { pwt_source_name := "pwt", nwt_target_name := some "pwt",
        batch_filename := ["b1"], reset_scores := false } (fun n => n) true =
      ([], some (.invalidOperation
        "ProcessBatchesArgs.pwt_source_name == ProcessBatchesArgs.nwt_target_name"))) ∧
    (∃ tr, (requestProcessBatches sampleSt
      { pwt_source_name := "pwt", nwt_target_name := some "nwt",
        batch_filename := ["b1"], reset_scores := false } (fun n => n) true).1 =
      Event.publish "nwt"
        ((emptyMatrix "nwt" samplePwt.topicNames).reshape samplePwt) :: tr) := by
  have h := requestProcessBatches_validation_and_publish sampleSt
    { pwt_source_name := "missing", nwt_target_name := none,
      batch_filename := ["b1"], reset_scores := false } (fun n => n) true
  have h2 := requestProcessBatches_validation_and_publish sampleSt
    { pwt_source_name := "pwt", nwt_target_name := some "pwt",
      batch_filename := ["b1"], reset_scores := false } (fun n => n) true
  have h3 := requestProcessBatches_validation_and_publish sampleSt
    { pwt_source_name := "pwt", nwt_target_name := some "nwt",
      batch_filename := ["b1"], reset_scores := false } (fun n => n) true
  refine ⟨h.1 (by decide), h2.2.1 samplePwt (by decide) rfl, ?_⟩
  obtain ⟨tr, htr, _⟩ := h3.2.2 samplePwt "nwt" (by decide) rfl (by decide)
  exact ⟨tr, htr⟩

/-- C9 (code bug): when the counts source exists only as a versioned topic
model, `RegularizeModel` resolves `n_wt` through either form but then builds
the target from the raw-matrix lookup `nwt_phi_matrix` — a null pointer — in
`nwt_phi_matrix->topic_name()` / `Reshape(*nwt_phi_matrix)`: an invalid
matrix access before the target is published. -/
theorem regularizeModel_null_deref_on_versioned_counts :
    regularizeModel sampleStVersioned (fun _ _ r => r)
      { pwt_source_name := some "pwt", nwt_source_name := some "nwt",
        rwt_target_name := some "rwt" } = .error .nullDereference := by
  rfl

/-! ### Codec lemmas: decimal framing -/

theorem decDigitsAux_lt_ten : ∀ (fuel n : Nat), ∀ d ∈ decDigitsAux fuel n, d < 10 := by
  intro fuel
  induction fuel with
  | zero => intro n d hd; cases hd
  | succ fuel ih =>
    intro n d hd
    rw [decDigitsAux] at hd
    by_cases hn : n = 0
    · simp [hn] at hd
    · rw [if_neg hn] at hd
      rcases List.mem_cons.mp hd with rfl | h
      · exact Nat.mod_lt _ (by norm_num)
      · exact ih _ d h

theorem foldl_decDigitsAux : ∀ (fuel n acc : Nat), n ≤ fuel →
    ((decDigitsAux fuel n).reverse).foldl (fun a d => a * 10 + d) acc =
      acc * 10 ^ (decDigitsAux fuel n).length + n := by
  intro fuel
  induction fuel with
  | zero =>
    intro n acc hn
    have : n = 0 := Nat.le_zero.mp hn
    simp [this, decDigitsAux]
  | succ fuel ih =>
    intro n acc hn
    rw [decDigitsAux]
    by_cases h0 : n = 0
    · simp [h0]
    · rw [if_neg h0]
      have hdiv : n / 10 ≤ fuel := by
        have : n / 10 < n := Nat.div_lt_self (Nat.pos_of_ne_zero h0) (by norm_num)
        omega
      simp only [List.reverse_cons, List.foldl_append, List.foldl_cons, List.foldl_nil,
        List.length_cons]
      rw [ih (n / 10) acc hdiv, pow_succ, Nat.add_mul, Nat.mul_assoc, Nat.add_assoc,
        Nat.mul_comm (n / 10) 10, Nat.div_add_mod]

theorem foldl_decDigits (n : Nat) :
    (decDigits n).foldl (fun a d => a * 10 + d) 0 = n := by
  rw [decDigits]
  by_cases h : n = 0
  · simp [h]
  · rw [if_neg h]
    simpa using foldl_decDigitsAux n n 0 le_rfl

theorem decDigits_lt_ten (n : Nat) : ∀ d ∈ decDigits n, d < 10 := by
  rw [decDigits]
  by_cases h : n = 0
  · simp [h]
  · rw [if_neg h]
    intro d hd
    exact decDigitsAux_lt_ten n n d (List.mem_reverse.mp hd)

theorem decDigits_ne_nil (n : Nat) : decDigits n ≠ [] := by
  rw [decDigits]
  by_cases h : n = 0
  · simp [h]
  · rw [if_neg h]
    cases n with
    | zero => exact absurd rfl h
    | succ k =>
      rw [decDigitsAux, if_neg h]
      simp

theorem parseDigits_digits : ∀ (ds : List Nat) (acc : Nat) (rest : List Nat),
    (∀ d ∈ ds, d < 10) →
    (∀ b, rest.head? = some b → isDigitByte b = false) →
    parseDigits acc (ds.map (fun d => d + 48) ++ rest) =
      (ds.foldl (fun a d => a * 10 + d) acc, rest) := by
  intro ds
  induction ds with
  | nil =>
    intro acc rest _ hrest
    cases rest with
    | nil => rfl
    | cons b tail =>
      simp [parseDigits, hrest b rfl]
  | cons d ds ih =>
    intro acc rest hlt hrest
    have hd : isDigitByte (d + 48) = true := by
      have := hlt d (by simp)
      simp only [isDigitByte, Bool.and_eq_true, decide_eq_true_eq]
      omega
    simp only [List.map_cons, List.cons_append, parseDigits, hd, if_true,
      List.foldl_cons]
    rw [show d + 48 - 48 = d from by omega]
    exact ih (acc * 10 + d) rest (fun x hx => hlt x (by simp [hx])) hrest

theorem isWsByte_digit (d : Nat) (hd : d < 10) : isWsByte (d + 48) = false := by
  simp only [isWsByte, Bool.or_eq_false_iff, beq_eq_false_iff_ne, ne_eq]
  omega

theorem extractInt_decimalBytes (n : Nat) (rest : List Nat)
    (hrest : ∀ b, rest.head? = some b → isDigitByte b = false) :
    extractInt (decimalBytes n ++ rest) = (some (n : Int), rest) := by
  obtain ⟨d0, ds, hds⟩ : ∃ d0 ds, decDigits n = d0 :: ds := by
    cases h : decDigits n with
    | nil => exact absurd h (decDigits_ne_nil n)
    | cons a l => exact ⟨a, l, rfl⟩
  have hlt := decDigits_lt_ten n
  have hd0 : d0 < 10 := hlt d0 (by rw [hds]; simp)
  have hws : isWsByte (d0 + 48) = false := isWsByte_digit d0 hd0
  have hsign : ((d0 + 48 == 45) || (d0 + 48 == 43)) = false := by
    simp only [Bool.or_eq_false_iff, beq_eq_false_iff_ne, ne_eq]
    omega
  have hdig : isDigitByte (d0 + 48) = true := by
    simp only [isDigitByte, Bool.and_eq_true, decide_eq_true_eq]
    omega
  rw [decimalBytes, hds]
  simp only [List.map_cons, List.cons_append, extractInt, List.dropWhile_cons, hws,
    Bool.false_eq_true, if_false, hsign, hdig, if_true]
  have := parseDigits_digits (d0 :: ds) 0 rest (by rw [← hds]; exact hlt) hrest
  simp only [List.map_cons, List.cons_append] at this
  rw [this]
  rw [show (d0 :: ds).foldl (fun a d => a * 10 + d) 0 = n from by rw [← hds]; exact foldl_decDigits n]

/-! ### Codec lemmas: chunk message roundtrip -/

theorem char_ofNat_toNat (c : Char) : Char.ofNat c.toNat = c := by
  rcases c with ⟨v, hv⟩
  simp only [Char.toNat, Char.ofNat]
  have hvalid : Nat.isValidChar v.toNat := hv
  rw [dif_pos hvalid]
  simp only [Char.ofNatAux, UInt32.ofNat']
  apply Char.ext
  apply UInt32.ext
  simp only [BitVec.ofNatLt]
  rfl

theorem decNat_encNat (n : Nat) (r : List Nat) : decNat (encNat n ++ r) = some (n, r) := rfl

theorem decInt_encInt (i : Int) (r : List Nat) : decInt (encInt i ++ r) = some (i, r) := by
  rw [encInt]
  by_cases hneg : i < 0
  · simp only [hneg, if_true, List.cons_append, List.nil_append, decInt]
    rw [show (2 * i.natAbs + 1) % 2 = 1 from by omega, if_neg (by omega)]
    rw [show (2 * i.natAbs + 1) / 2 = i.natAbs from by omega]
    rw [show -((i.natAbs : Nat) : Int) = i from by omega]
  · simp only [hneg, if_false, List.cons_append, List.nil_append, decInt]
    rw [show (2 * i.natAbs + 0) % 2 = 0 from by omega, if_pos rfl]
    rw [show (2 * i.natAbs + 0) / 2 = i.natAbs from by omega]
    rw [show ((i.natAbs : Nat) : Int) = i from by omega]

theorem decRat_encRat (q : ℚ) (r : List Nat) : decRat (encRat q ++ r) = some (q, r) := by
  simp only [encRat, decRat, List.append_assoc, decInt_encInt, decNat_encNat, Rat.mkRat_self]

set_option maxRecDepth 2000 in
theorem decString_encString (s : String) (r : List Nat) :
    decString (encString s ++ r) = some (s, r) := by
  have hlen : s.length = (s.data.map Char.toNat).length := by
    rw [List.length_map]
    rfl
  simp only [encString]
  simp only [List.cons_append]
  simp only [decString]
  rw [hlen, if_pos (by simp), List.take_left, List.drop_left, List.map_map]
  have hmap : s.data.map (Char.ofNat ∘ Char.toNat) = s.data := by
    induction s.data with
    | nil => rfl
    | cons c l ih => simp only [List.map_cons, Function.comp_apply, char_ofNat_toNat, ih]
  rw [hmap]

theorem decCount_enc {α : Type} (enc : α → List Nat)
    (dec : List Nat → Option (α × List Nat))
    (hrt : ∀ (x : α) (r : List Nat), dec (enc x ++ r) = some (x, r)) :
    ∀ (xs : List α) (r : List Nat),
      decCount dec xs.length ((xs.map enc).flatten ++ r) = some (xs, r) := by
  intro xs
  induction xs with
  | nil => intro r; rfl
  | cons x xs ih =>
    intro r
    simp only [List.map_cons, List.flatten_cons, List.length_cons, List.append_assoc,
      decCount, hrt, ih]

theorem decListWith_encListWith {α : Type} (enc : α → List Nat)
    (dec : List Nat → Option (α × List Nat))
    (hrt : ∀ (x : α) (r : List Nat), dec (enc x ++ r) = some (x, r))
    (xs : List α) (r : List Nat) :
    decListWith dec (encListWith enc xs ++ r) = some (xs, r) := by
  simp only [encListWith, List.cons_append, decListWith]
  exact decCount_enc enc dec hrt xs r

theorem decEntry_encEntry (e : Token × List ℚ) (r : List Nat) :
    decEntry (encEntry e ++ r) = some (e, r) := by
  simp only [encEntry, decEntry, List.append_assoc, decString_encString,
    decListWith_encListWith encRat decRat decRat_encRat]

theorem parseChunk_serializeChunk (c : ChunkMsg) : parseChunk (serializeChunk c) = some c := by
  have h2 : decListWith decEntry (encListWith encEntry c.entries) = some (c.entries, []) := by
    have := decListWith_encListWith encEntry decEntry decEntry_encEntry c.entries []
    simpa using this
  simp only [serializeChunk, parseChunk,
    decListWith_encListWith encString decString decString_encString, h2, List.isEmpty_nil,
    if_true]

/-! ### Codec lemmas: export chunking and the import loop -/

theorem exportChunks_flatten (tpc : Nat) :
    ∀ (l acc : List (Token × List ℚ)), l ≠ [] →
      (exportChunks tpc acc l).flatten = acc ++ l := by
  intro l
  induction l with
  | nil => intro acc h; exact absurd rfl h
  | cons e rest ih =>
    intro acc _
    by_cases hr : rest = []
    · subst hr
      simp [exportChunks]
    · by_cases hlen : tpc ≤ (acc ++ [e]).length
      · simp only [exportChunks, hr, hlen, or_true, if_true, List.flatten_cons]
        rw [ih [] hr]
        simp
      · simp only [exportChunks, hr, hlen, or_false, if_false]
        rw [ih (acc ++ [e]) hr]
        simp

theorem serializeChunk_length_pos (c : ChunkMsg) : 0 < (serializeChunk c).length := by
  simp [serializeChunk]

theorem importLoop_frame (name : String) (c : ChunkMsg) (rest : List Nat)
    (target : Option PhiMatrix) (fuel : Nat) :
    importLoop name (fuel + 1) (frameChunk c ++ rest) target =
      importLoop name fuel rest
        (some (applyTopicModelOperation c.entries 1
          (match target with
           | none => emptyMatrix name c.topicNames
           | some t => t))) := by
  have hhead : ∀ b, (serializeChunk c ++ rest).head? = some b → isDigitByte b = false := by
    intro b hb
    rw [serializeChunk, List.cons_append, List.head?_cons] at hb
    cases hb
    decide
  have hext : extractInt (decimalBytes (serializeChunk c).length ++ (serializeChunk c ++ rest)) =
      (some ((serializeChunk c).length : Int), serializeChunk c ++ rest) :=
    extractInt_decimalBytes _ _ hhead
  have hpos := serializeChunk_length_pos c
  rw [frameChunk, List.append_assoc]
  simp only [importLoop, hext]
  rw [if_neg (by simp [serializeChunk])]
  rw [if_neg (by omega)]
  rw [Int.toNat_natCast, List.take_left]
  rw [show (serializeChunk c).length - (serializeChunk c ++ rest).length = 0 from by
    simp only [List.length_append]
    omega]
  rw [List.replicate_zero, List.append_nil]
  simp only [parseChunk_serializeChunk, List.drop_left]

theorem importLoop_frames_general (name : String) :
    ∀ (cs : List ChunkMsg) (fuel : Nat) (target : Option PhiMatrix) (tail0 : List Nat),
      importLoop name (fuel + cs.length) ((cs.map frameChunk).flatten ++ tail0) target =
        importLoop name fuel tail0
          (cs.foldl (fun t c =>
            some (applyTopicModelOperation c.entries 1
              (match t with
               | none => emptyMatrix name c.topicNames
               | some t0 => t0))) target) := by
  intro cs
  induction cs with
  | nil => intro fuel target tail0; simp
  | cons c cs ih =>
    intro fuel target tail0
    simp only [List.map_cons, List.flatten_cons, List.length_cons, List.append_assoc,
      List.foldl_cons]
    rw [show fuel + (cs.length + 1) = (fuel + cs.length) + 1 from by omega]
    rw [importLoop_frame]
    exact ih fuel _ tail0

theorem importLoop_nil (name : String) (fuel : Nat) (target : Option PhiMatrix) :
    importLoop name (fuel + 1) [] target = .ok target := rfl

theorem importLoop_trailing_digits (name : String) (fuel k : Nat) (target : Option PhiMatrix) :
    importLoop name (fuel + 1) (decimalBytes k) target = .ok target := by
  have hext : extractInt (decimalBytes k) = (some (k : Int), []) := by
    have := extractInt_decimalBytes k [] (fun b hb => by cases hb)
    simpa using this
  simp only [importLoop, hext, if_true]

theorem applyRow_fresh (t : PhiMatrix) (w : ℚ) (tok : Token) (row : List ℚ)
    (h : tok ∉ t.tokens) :
    t.applyRow w tok row = { t with tokens := t.tokens ++ [tok],
                                    weights := t.weights ++ [row.map (fun x => w * x)] } := by
  rw [PhiMatrix.applyRow, if_neg h]

theorem map_one_mul (row : List ℚ) : row.map (fun x => (1 : ℚ) * x) = row := by
  simp

theorem applyTopicModelOperation_fresh :
    ∀ (entries : List (Token × List ℚ)) (t : PhiMatrix),
      (∀ e ∈ entries, e.1 ∉ t.tokens) → (entries.map Prod.fst).Nodup →
      applyTopicModelOperation entries 1 t =
        { t with tokens := t.tokens ++ entries.map Prod.fst,
                 weights := t.weights ++ entries.map Prod.snd } := by
  intro entries
  induction entries with
  | nil => intro t _ _; cases t; simp [applyTopicModelOperation]
  | cons e es ih =>
    intro t hfresh hnodup
    rw [List.map_cons] at hnodup
    have hnd := List.nodup_cons.mp hnodup
    show applyTopicModelOperation es 1 (t.applyRow 1 e.1 e.2) = _
    rw [applyRow_fresh t 1 e.1 e.2 (hfresh e (by simp)), map_one_mul]
    rw [ih _ ?_ hnd.2]
    · simp [List.append_assoc]
    · intro e' he' hmem
      rcases List.mem_append.mp hmem with h1 | h1
      · exact hfresh e' (by simp [he']) h1
      · have heq : e'.1 = e.1 := by simpa using h1
        exact hnd.1 (heq ▸ List.mem_map_of_mem Prod.fst he')

theorem foldTarget_some (name : String) :
    ∀ (cs : List ChunkMsg) (t : PhiMatrix),
      cs.foldl (fun t c =>
        some (applyTopicModelOperation c.entries 1
          (match t with | none => emptyMatrix name c.topicNames | some t0 => t0))) (some t) =
      some (cs.foldl (fun t c => applyTopicModelOperation c.entries 1 t) t) := by
  intro cs
  induction cs with
  | nil => intro t; rfl
  | cons c cs ih => intro t; exact ih _

theorem foldl_apply_chunks :
    ∀ (ess : List (List (Token × List ℚ))) (t : PhiMatrix),
      (∀ e ∈ ess.flatten, e.1 ∉ t.tokens) → ((ess.flatten).map Prod.fst).Nodup →
      ess.foldl (fun t es => applyTopicModelOperation es 1 t) t =
        { t with tokens := t.tokens ++ (ess.flatten).map Prod.fst,
                 weights := t.weights ++ (ess.flatten).map Prod.snd } := by
  intro ess
  induction ess with
  | nil => intro t _ _; cases t; simp
  | cons es ess ih =>
    intro t hfresh hnodup
    rw [List.flatten_cons, List.map_append] at hnodup
    rw [List.nodup_append] at hnodup
    obtain ⟨hnd1, hnd2, hdisj⟩ := hnodup
    rw [List.foldl_cons]
    rw [applyTopicModelOperation_fresh es t
      (fun e he => hfresh e (by rw [List.flatten_cons]; exact List.mem_append_left _ he)) hnd1]
    rw [ih _ ?_ hnd2]
    · simp [List.flatten_cons, List.map_append, List.append_assoc]
    · intro e he hmem
      rcases List.mem_append.mp hmem with h1 | h1
      · exact hfresh e (by rw [List.flatten_cons]; exact List.mem_append_right _ he) h1
      · exact hdisj h1 (List.mem_map_of_mem Prod.fst he)

theorem length_le_flatten_map_frameChunk (cs : List ChunkMsg) :
    cs.length ≤ ((cs.map frameChunk).flatten).length := by
  induction cs with
  | nil => simp
  | cons c cs ih =>
    simp only [List.map_cons, List.flatten_cons, List.length_append, List.length_cons]
    have hpos : 0 < (frameChunk c).length := by
      rw [frameChunk, List.length_append]
      have := serializeChunk_length_pos c
      omega
    omega

theorem importModel_zero_version (junk : Nat) (name : String) (rest : List Nat) :
    importModel junk name (0 :: rest) =
      match importLoop name (rest.length + 1) rest none with
      | .error e => .error e
      | .ok none => .error (.corruptedMessage "Unable to read from file")
      | .ok (some target) => .ok target := rfl

theorem importLoop_frames_only (name : String) (cs : List ChunkMsg) (fuel : Nat)
    (target : Option PhiMatrix) :
    importLoop name ((fuel + 1) + cs.length) ((cs.map frameChunk).flatten) target =
      .ok (cs.foldl (fun t c =>
        some (applyTopicModelOperation c.entries 1
          (match t with | none => emptyMatrix name c.topicNames | some t0 => t0))) target) := by
  have h := importLoop_frames_general name cs (fuel + 1) target []
  rw [List.append_nil] at h
  rw [h, importLoop_nil]

/-- C3 (counterexample): a matrix with no tokens cannot be exported at all —
`ExportModel` fails with invalid-operation instead of producing a zero-chunk
stream — so the roundtrip claim fails at this input: there is no stream
to import at all. -/
theorem export_empty_matrix_fails :
    exportModel { name := "empty", topicNames := ["t1"], tokens := [], weights := [] } =
      .error (.invalidOperation ("Model " ++ "empty" ++ " has no tokens, export failed")) ∧
    ∀ stream,
      exportModel { name := "empty", topicNames := ["t1"], tokens := [], weights := [] } ≠
        .ok stream := by
  refine ⟨rfl, ?_⟩
  intro stream h
  rw [show exportModel { name := "empty", topicNames := ["t1"], tokens := [], weights := [] } =
      .error (.invalidOperation ("Model " ++ "empty" ++ " has no tokens, export failed"))
    from rfl] at h
  exact Except.noConfusion h

/-- C3 (amended): for every matrix with at least one token — tokens pairwise
distinct and one weight row per token — exporting it and importing the
resulting stream under a fresh name reproduces exactly the same topic-name
list, token list and weight rows (weights are exact rationals here, so
"within floating tolerance" strengthens to equality); the chunking bound is
arbitrary, so this covers streams of one chunk and of many chunks.  A matrix
with zero tokens cannot be exported (invalid-operation), so no zero-chunk
stream exists. -/
theorem export_import_roundtrip (m : PhiMatrix) (junk : Nat) (freshName : String)
    (hne : m.tokens ≠ []) (hnd : m.tokens.Nodup)
    (hwf : m.weights.length = m.tokens.length) :
    ∃ stream m2, exportModel m = .ok stream ∧
      importModel junk freshName stream = .ok m2 ∧
      m2.topicNames = m.topicNames ∧ m2.tokens = m.tokens ∧ m2.weights = m.weights := by
  have hmapfst : m.entries.map Prod.fst = m.tokens :=
    List.map_fst_zip _ _ (le_of_eq hwf.symm)
  have hmapsnd : m.entries.map Prod.snd = m.weights :=
    List.map_snd_zip _ _ (le_of_eq hwf)
  have hentries_ne : m.entries ≠ [] := by
    intro h
    apply hne
    rw [← hmapfst, h]
    rfl
  set tpc := min m.tokens.length (100 * 1024 * 1024 / m.topicNames.length) with htpc
  set ess := exportChunks tpc [] m.entries with hess
  have hflat : ess.flatten = m.entries := by
    simpa using exportChunks_flatten tpc m.entries [] hentries_ne
  have hess_ne : ess ≠ [] := by
    intro h
    apply hentries_ne
    rw [← hflat, h]
    rfl
  set cs := ess.map (fun es => ChunkMsg.mk m.topicNames es) with hcs
  have hmapframe : ess.map (fun es => frameChunk ⟨m.topicNames, es⟩) = cs.map frameChunk := by
    rw [hcs, List.map_map]
    rfl
  have h0 : ¬(m.tokens.length = 0) := by simpa [List.length_eq_zero] using hne
  have hexp : exportModel m = .ok (0 :: (cs.map frameChunk).flatten) := by
    simp only [exportModel, h0, if_false]
    rw [← htpc, ← hess, hmapframe]
  obtain ⟨c0, cs', hc0⟩ : ∃ c0 cs', cs = c0 :: cs' := by
    cases hcase : cs with
    | nil =>
      rw [hcs] at hcase
      exact absurd (List.map_eq_nil_iff.mp hcase) hess_ne
    | cons a l => exact ⟨a, l, rfl⟩
  have hc0tn : c0.topicNames = m.topicNames := by
    have hmem : c0 ∈ cs := by rw [hc0]; simp
    rw [hcs] at hmem
    obtain ⟨es, _, rfl⟩ := List.mem_map.mp hmem
    rfl
  have happlyfun : (fun (x : PhiMatrix) (y : List (Token × List ℚ)) =>
      applyTopicModelOperation (ChunkMsg.mk m.topicNames y).entries 1 x) =
      fun x y => applyTopicModelOperation y 1 x := rfl
  have hfold : cs.foldl (fun t c =>
      some (applyTopicModelOperation c.entries 1
        (match t with | none => emptyMatrix freshName c.topicNames | some t0 => t0))) none =
      some { name := freshName, topicNames := m.topicNames,
             tokens := m.tokens, weights := m.weights } := by
    rw [hc0, List.foldl_cons]
    rw [show (match (none : Option PhiMatrix) with
        | none => emptyMatrix freshName c0.topicNames
        | some t0 => t0) = emptyMatrix freshName c0.topicNames from rfl]
    rw [foldTarget_some freshName cs']
    rw [show applyTopicModelOperation c0.entries 1 (emptyMatrix freshName c0.topicNames) =
        (fun (t : PhiMatrix) (c : ChunkMsg) => applyTopicModelOperation c.entries 1 t)
          (emptyMatrix freshName c0.topicNames) c0 from rfl]
    rw [← List.foldl_cons]
    rw [← hc0, hc0tn, hcs, List.foldl_map, happlyfun]
    rw [foldl_apply_chunks ess (emptyMatrix freshName m.topicNames)
      (fun e _ hmem => List.not_mem_nil e.1 hmem)
      (by rw [hflat, hmapfst]; exact hnd)]
    rw [hflat, hmapfst, hmapsnd]
    rfl
  have hcslen : cs.length ≤ ((cs.map frameChunk).flatten).length :=
    length_le_flatten_map_frameChunk cs
  have himp : importModel junk freshName (0 :: (cs.map frameChunk).flatten) =
      .ok { name := freshName, topicNames := m.topicNames,
            tokens := m.tokens, weights := m.weights } := by
    rw [importModel_zero_version]
    rw [show ((cs.map frameChunk).flatten).length + 1 =
        ((((cs.map frameChunk).flatten).length - cs.length) + 1) + cs.length from by omega]
    rw [importLoop_frames_only, hfold]
  exact ⟨0 :: (cs.map frameChunk).flatten,
    { name := freshName, topicNames := m.topicNames,
      tokens := m.tokens, weights := m.weights },
    hexp, himp, rfl, rfl, rfl⟩

theorem export_import_roundtrip_witness :
    ∃ stream m2, exportModel samplePwt = .ok stream ∧
      importModel 7 "fresh" stream = .ok m2 ∧
      m2.topicNames = samplePwt.topicNames ∧ m2.tokens = samplePwt.tokens ∧
      m2.weights = samplePwt.weights :=
  export_import_roundtrip samplePwt 7 "fresh" (by decide) (by decide) (by decide)

/-- C4 (counterexample): a one-byte file holding the version byte 1 makes
the importer fail with the disk-read error class ("Unsupported fromat
version", sic), not with the corrupted-message class the claim asserts. -/
theorem import_nonzero_version_not_corrupted :
    importModel 0 "m" [1] = .error (.diskRead "Unsupported fromat version") ∧
    ∀ msg, importModel 0 "m" [1] ≠ .error (.corruptedMessage msg) := by
  refine ⟨rfl, ?_⟩
  intro msg h
  rw [show importModel 0 "m" [1] = .error (.diskRead "Unsupported fromat version")
    from rfl] at h
  simp at h

/-- C4 (amended): import error classification as the code implements it —
(1) a non-zero leading version byte fails with the disk-read class;
(2) an empty file fails, with disk-read or corrupted-message depending on the
uninitialized version variable the failed read leaves behind;
(3) a file holding only the version byte yields no chunk and fails as
corrupted; (4) a non-positive length token with further input remaining fails
as corrupted; (5) a positive length whose read-back (zero-padded when the
stream runs short, covering truncations) does not parse as a chunk fails as
corrupted; (6) an unparseable length token with input remaining fails as
corrupted; and (7) a length token that extends to the very end of the stream
is a clean stop, not an error: trailing decimal digits after the framed
chunks leave the import result unchanged.  Every error case stops the import
with no matrix published. -/
theorem import_error_classification :
    (∀ (junk : Nat) (name : String) (b : Nat) (rest : List Nat),
      isWsByte b = false → b ≠ 0 →
      importModel junk name (b :: rest) = .error (.diskRead "Unsupported fromat version")) ∧
    (∀ (junk : Nat) (name : String),
      importModel junk name [] = .error (.diskRead "Unsupported fromat version") ∨
      importModel junk name [] = .error (.corruptedMessage "Unable to read from file")) ∧
    (∀ (junk : Nat) (name : String),
      importModel junk name [0] = .error (.corruptedMessage "Unable to read from file")) ∧
    (∀ (junk : Nat) (name : String) (rest : List Nat) (v : Int) (rest2 : List Nat),
      extractInt rest = (some v, rest2) → rest2 ≠ [] → v ≤ 0 →
      importModel junk name (0 :: rest) =
        .error (.corruptedMessage "Unable to read from file")) ∧
    (∀ (junk : Nat) (name : String) (rest : List Nat) (v : Int) (rest2 : List Nat),
      extractInt rest = (some v, rest2) → rest2 ≠ [] → 0 < v →
      parseChunk (rest2.take v.toNat ++ List.replicate (v.toNat - rest2.length) 0) = none →
      importModel junk name (0 :: rest) =
        .error (.corruptedMessage "Unable to read from file")) ∧
    (∀ (junk : Nat) (name : String) (rest : List Nat) (rest2 : List Nat),
      extractInt rest = (none, rest2) → rest2 ≠ [] →
      importModel junk name (0 :: rest) =
        .error (.corruptedMessage "Unable to read from file")) ∧
    (∀ (junk : Nat) (name : String) (cs : List ChunkMsg) (k : Nat),
      importModel junk name (0 :: ((cs.map frameChunk).flatten ++ decimalBytes k)) =
        importModel junk name (0 :: (cs.map frameChunk).flatten)) := by
  refine ⟨?_, ?_, ?_, ?_, ?_, ?_, ?_⟩
  · intro junk name b rest hws hb
    have hchar : extractChar (b :: rest) = (some b, rest) := by
      simp [extractChar, List.dropWhile_cons, hws]
    simp only [importModel, hchar, Option.getD_some]
    rw [if_pos hb]
  · intro junk name
    by_cases hj : junk = 0
    · right
      subst hj
      rfl
    · left
      have hchar : extractChar ([] : List Nat) = (none, []) := rfl
      simp only [importModel, hchar, Option.getD_none]
      rw [if_pos hj]
  · intro junk name
    rfl
  · intro junk name rest v rest2 hext hne2 hv
    rw [importModel_zero_version]
    have hloop : importLoop name (rest.length + 1) rest none =
        .error (.corruptedMessage "Unable to read from file") := by
      simp only [importLoop, hext]
      rw [if_neg hne2, if_pos hv]
    rw [hloop]
  · intro junk name rest v rest2 hext hne2 hv hparse
    rw [importModel_zero_version]
    have hloop : importLoop name (rest.length + 1) rest none =
        .error (.corruptedMessage "Unable to read from file") := by
      simp only [importLoop, hext]
      rw [if_neg hne2, if_neg (by omega)]
      simp only [hparse]
    rw [hloop]
  · intro junk name rest rest2 hext hne2
    rw [importModel_zero_version]
    have hloop : importLoop name (rest.length + 1) rest none =
        .error (.corruptedMessage "Unable to read from file") := by
      simp only [importLoop, hext]
      rw [if_neg hne2]
    rw [hloop]
  · intro junk name cs k
    rw [importModel_zero_version, importModel_zero_version]
    have hcslen : cs.length ≤ ((cs.map frameChunk).flatten).length :=
      length_le_flatten_map_frameChunk cs
    have hlhs : importLoop name
        (((cs.map frameChunk).flatten ++ decimalBytes k).length + 1)
        ((cs.map frameChunk).flatten ++ decimalBytes k) none =
        .ok (cs.foldl (fun t c =>
          some (applyTopicModelOperation c.entries 1
            (match t with | none => emptyMatrix name c.topicNames | some t0 => t0))) none) := by
      rw [show ((cs.map frameChunk).flatten ++ decimalBytes k).length + 1 =
          ((((cs.map frameChunk).flatten ++ decimalBytes k).length - cs.length) + 1) +
            cs.length from by
        rw [List.length_append]
        omega]
      rw [importLoop_frames_general]
      rw [importLoop_trailing_digits]
    have hrhs : importLoop name ((((cs.map frameChunk).flatten).length) + 1)
        ((cs.map frameChunk).flatten) none =
        .ok (cs.foldl (fun t c =>
          some (applyTopicModelOperation c.entries 1
            (match t with | none => emptyMatrix name c.topicNames | some t0 => t0))) none) := by
      rw [show (((cs.map frameChunk).flatten).length) + 1 =
          (((((cs.map frameChunk).flatten).length) - cs.length) + 1) + cs.length from by omega]
      rw [importLoop_frames_only]
    rw [hlhs, hrhs]

theorem import_error_classification_witness :
    importModel 0 "m" [2] = .error (.diskRead "Unsupported fromat version") ∧
    (importModel 5 "m" [] = .error (.diskRead "Unsupported fromat version") ∨
      importModel 5 "m" [] = .error (.corruptedMessage "Unable to read from file")) ∧
    importModel 0 "m" [0] = .error (.corruptedMessage "Unable to read from file") ∧
    importModel 0 "m" [0, 48, 65] = .error (.corruptedMessage "Unable to read from file") ∧
    importModel 0 "m" [0, 49, 65, 66] = .error (.corruptedMessage "Unable to read from file") ∧
    importModel 0 "m" [0, 65] = .error (.corruptedMessage "Unable to read from file") := by
  have h := import_error_classification
  refine ⟨h.1 0 "m" 2 [] (by decide) (by decide),
    h.2.1 5 "m",
    h.2.2.1 0 "m",
    h.2.2.2.1 0 "m" [48, 65] 0 [65] (by decide) (by decide) (by decide),
    h.2.2.2.2.1 0 "m" [49, 65, 66] 1 [65, 66] (by decide) (by decide) (by decide) (by decide),
    h.2.2.2.2.2.1 0 "m" [65] [65] (by decide) (by decide)⟩

end ArtmCore
